import Mathlib

set_option maxRecDepth 1000000

/-!
# Webhook trust boundary of the JewelMusic SDK — formal model

A shallow embedding of `jewelmusic_sdk/resources/webhooks.py`:
`WebhooksResource.verify_signature`, `WebhooksResource.parse_event` and
`WebhooksResource.create_signature`, together with the external primitives
they call (SHA-256 and HMAC per FIPS 180-4 / RFC 2104 as provided by
Python's `hashlib`/`hmac`, strict UTF-8 codecs, Python's `int()` string
parser, CPython's `hmac.compare_digest`, and the `json` module's parser).

Python `str` values are modelled as lists of Unicode code points
(`PyStr := List Nat`), byte strings as lists of naturals below 256.
Exceptions are modelled with `Option`/`Except`: a function that can raise
returns `none`/`.error` at exactly the points where the Python source
raises, and `try`/`except` blocks become explicit recoveries.
-/

/-- A Python `str`: a sequence of Unicode code points. -/
abbrev PyStr := List Nat

/-- A Python `bytes` value: a sequence of byte values. -/
abbrev Bytes := List Nat

/-- Code points of a Lean string literal, used to transcribe the Python
string literals of the source. -/
def strLit (s : String) : PyStr := s.data.map Char.toNat

/-! ## Python `str.split` -/

/-- Python's `str.split(sep)` with a one-character separator: splits on every
occurrence, keeping empty fields (`''.split(',') == ['']`). -/
def pySplit (sep : Nat) : PyStr → List PyStr
  | [] => [[]]
  | c :: rest =>
    let r := pySplit sep rest
    if c = sep then [] :: r
    else
      match r with
      | h :: t => (c :: h) :: t
      | [] => [[c]]

/-! ## Decimal rendering and Python `int()` parsing -/

/-- Digit characters of the decimal rendering of a natural number,
most-significant first, driven by a fuel argument so the definition is
structurally recursive (the fuel is always sufficient at the call site). -/
def natStrGo : Nat → Nat → PyStr
  | 0, _ => []
  | fuel + 1, n => if n < 10 then [48 + n] else natStrGo fuel (n / 10) ++ [48 + n % 10]

/-- Python's `str(n)` for `n ≥ 0`: decimal digits, most-significant first. -/
def natStr (n : Nat) : PyStr := natStrGo (n + 1) n

/-- Python's `str(t)` on an `int`: decimal digits, `-`-prefixed when
negative. -/
def intStr (t : Int) : PyStr :=
  if t < 0 then 45 :: natStr t.natAbs else natStr t.natAbs

/-- ASCII decimal digit. -/
def isDigitB (c : Nat) : Bool := 48 ≤ c && c ≤ 57

/-- Whitespace stripped by Python's `int(str)` conversion (ASCII subset of
Python's notion, which the source never exercises beyond ASCII). -/
def isPySpace (c : Nat) : Bool := c = 32 || (9 ≤ c && c ≤ 13)

/-- `str.strip()` used implicitly by `int()`: drop leading and trailing
whitespace. -/
def pyStrip (s : PyStr) : PyStr :=
  ((s.dropWhile isPySpace).reverse.dropWhile isPySpace).reverse

/-- Digit run of a Python integer literal after the first digit: decimal
digits with single underscores allowed between digits. -/
def digitsVal (acc : Nat) : PyStr → Option Nat
  | [] => some acc
  | c :: rest =>
    if isDigitB c then digitsVal (acc * 10 + (c - 48)) rest
    else if c = 95 then
      match rest with
      | d :: rest' => if isDigitB d then digitsVal (acc * 10 + (d - 48)) rest' else none
      | [] => none
    else none

/-- Body of a Python integer literal: a nonempty digit run starting with a
digit, underscores only between digits. -/
def parseDigits : PyStr → Option Nat
  | [] => none
  | c :: rest => if isDigitB c then digitsVal (c - 48) rest else none

/-- Python's `int(s)` on a `str`: strip whitespace, optional sign, decimal
digits (ASCII model). `none` models the `ValueError` raised on anything
else. -/
def pyInt (s : PyStr) : Option Int :=
  match pyStrip s with
  | [] => none
  | c :: rest =>
    if c = 43 then (parseDigits rest).map Int.ofNat
    else if c = 45 then (parseDigits rest).map (fun n => -(n : Int))
    else (parseDigits (c :: rest)).map Int.ofNat

/-! ## SHA-256 (FIPS 180-4), the hash behind Python's `hashlib.sha256` -/

/-- 32-bit truncation. -/
def w32 (x : Nat) : Nat := x % 4294967296

/-- Right rotation of a 32-bit word. -/
def rotr (n x : Nat) : Nat := w32 ((x >>> n) ||| (x <<< (32 - n)))

/-- Bitwise complement of a 32-bit word. -/
def not32 (x : Nat) : Nat := 4294967295 ^^^ x

def ch32 (x y z : Nat) : Nat := (x &&& y) ^^^ (not32 x &&& z)

def maj32 (x y z : Nat) : Nat := (x &&& y) ^^^ (x &&& z) ^^^ (y &&& z)

def bigSigma0 (x : Nat) : Nat := rotr 2 x ^^^ rotr 13 x ^^^ rotr 22 x

def bigSigma1 (x : Nat) : Nat := rotr 6 x ^^^ rotr 11 x ^^^ rotr 25 x

def smallSigma0 (x : Nat) : Nat := rotr 7 x ^^^ rotr 18 x ^^^ (x >>> 3)

def smallSigma1 (x : Nat) : Nat := rotr 17 x ^^^ rotr 19 x ^^^ (x >>> 10)

/-- The SHA-256 round constants. -/
def K256 : List Nat :=
  [1116352408, 1899447441, 3049323471, 3921009573, 961987163, 1508970993,
   2453635748, 2870763221, 3624381080, 310598401, 607225278, 1426881987,
   1925078388, 2162078206, 2614888103, 3248222580, 3835390401, 4022224774,
   264347078, 604807628, 770255983, 1249150122, 1555081692, 1996064986,
   2554220882, 2821834349, 2952996808, 3210313671, 3336571891, 3584528711,
   113926993, 338241895, 666307205, 773529912, 1294757372, 1396182291,
   1695183700, 1986661051, 2177026350, 2456956037, 2730485921, 2820302411,
   3259730800, 3345764771, 3516065817, 3600352804, 4094571909, 275423344,
   430227734, 506948616, 659060556, 883997877, 958139571, 1322822218,
   1537002063, 1747873779, 1955562222, 2024104815, 2227730452, 2361852424,
   2428436474, 2756734187, 3204031479, 3329325298]

/-- The eight working variables of a SHA-256 compression. -/
structure Sha2St where
  a : Nat
  b : Nat
  c : Nat
  d : Nat
  e : Nat
  f : Nat
  g : Nat
  h : Nat

/-- SHA-256 initial hash value. -/
def sha2Init : Sha2St :=
  ⟨1779033703, 3144134277, 1013904242, 2773480762,
   1359893119, 2600822924, 528734635, 1541459225⟩

/-- One SHA-256 round: absorb a constant and a schedule word. -/
def sha2Round (s : Sha2St) (kw : Nat × Nat) : Sha2St :=
  let t1 := w32 (s.h + bigSigma1 s.e + ch32 s.e s.f s.g + kw.1 + kw.2)
  let t2 := w32 (bigSigma0 s.a + maj32 s.a s.b s.c)
  ⟨w32 (t1 + t2), s.a, s.b, s.c, w32 (s.d + t1), s.e, s.f, s.g⟩

/-- Extend the 16 message words to 64 schedule words.  The accumulator keeps
the words generated so far, newest first, so the four taps of the recurrence
sit at fixed offsets from the head. -/
def sha2ExtGo : Nat → List Nat → List Nat
  | 0, acc => acc
  | n + 1, acc =>
    let w := w32 (smallSigma1 (acc.getD 1 0) + acc.getD 6 0 +
                  smallSigma0 (acc.getD 14 0) + acc.getD 15 0)
    sha2ExtGo n (w :: acc)

/-- The 64-word message schedule of one block. -/
def sha2Schedule (ws : List Nat) : List Nat :=
  (sha2ExtGo 48 ws.reverse).reverse

/-- Compress one 512-bit block (given as 16 words) into the chaining state. -/
def sha2Compress (st : Sha2St) (ws : List Nat) : Sha2St :=
  let r := (List.zip K256 (sha2Schedule ws)).foldl sha2Round st
  ⟨w32 (st.a + r.a), w32 (st.b + r.b), w32 (st.c + r.c), w32 (st.d + r.d),
   w32 (st.e + r.e), w32 (st.f + r.f), w32 (st.g + r.g), w32 (st.h + r.h)⟩

/-- Group bytes into big-endian 32-bit words. -/
def bytesToWords : Bytes → List Nat
  | a :: b :: c :: d :: rest => (a * 16777216 + b * 65536 + c * 256 + d) :: bytesToWords rest
  | _ => []

/-- Big-endian bytes of a 32-bit word. -/
def wordBytes (w : Nat) : Bytes :=
  [w / 16777216 % 256, w / 65536 % 256, w / 256 % 256, w % 256]

/-- SHA-256 padding: `0x80`, zeros to 56 mod 64, then the bit length on
64 bits big-endian. -/
def sha2Pad (m : Bytes) : Bytes :=
  let z := (120 - (m.length + 1) % 64) % 64
  let n := 8 * m.length
  m ++ 128 :: List.replicate z 0 ++
    [n / 72057594037927936 % 256, n / 281474976710656 % 256, n / 1099511627776 % 256,
     n / 4294967296 % 256, n / 16777216 % 256, n / 65536 % 256, n / 256 % 256, n % 256]

/-- Cut a byte list into 64-byte blocks (fuel-driven; the fuel is always
sufficient at the call site). -/
def chunks64Go : Nat → Bytes → List Bytes
  | 0, _ => []
  | _, [] => []
  | fuel + 1, l => l.take 64 :: chunks64Go fuel (l.drop 64)

def chunks64 (l : Bytes) : List Bytes := chunks64Go l.length l

/-- The 32 digest bytes of a final state. -/
def sha2StBytes (s : Sha2St) : Bytes :=
  wordBytes s.a ++ wordBytes s.b ++ wordBytes s.c ++ wordBytes s.d ++
  wordBytes s.e ++ wordBytes s.f ++ wordBytes s.g ++ wordBytes s.h

/-- SHA-256 of a byte string: the digest as 32 bytes.  This is Python's
`hashlib.sha256(m).digest()`. -/
def sha256 (m : Bytes) : Bytes :=
  sha2StBytes ((chunks64 (sha2Pad m)).foldl (fun st blk => sha2Compress st (bytesToWords blk)) sha2Init)

/-! ## Hex encoding and HMAC (RFC 2104), Python's `hmac.new(..).hexdigest()` -/

/-- Lowercase hex character of a nibble. -/
def nibbleChar (n : Nat) : Nat := if n < 10 then 48 + n else 87 + n

/-- Lowercase hex rendering of a byte string — `bytes.hex()` /
`hexdigest()`. -/
def bytesHex (bs : Bytes) : PyStr :=
  bs.flatMap (fun b => [nibbleChar (b / 16), nibbleChar (b % 16)])

/-- HMAC-SHA256 digest bytes (RFC 2104, block size 64). -/
def hmacSha256 (key msg : Bytes) : Bytes :=
  let k0 := if 64 < key.length then sha256 key else key
  let kp := k0 ++ List.replicate (64 - k0.length) 0
  sha256 ((kp.map (· ^^^ 92)) ++ sha256 ((kp.map (· ^^^ 54)) ++ msg))

/-- `hmac.new(key, msg, hashlib.sha256).hexdigest()`. -/
def hmacSha256Hex (key msg : Bytes) : PyStr := bytesHex (hmacSha256 key msg)

/-! ## Strict UTF-8 codecs — Python's `str.encode('utf-8')` / `bytes.decode('utf-8')` -/

/-- UTF-8 encoding of one code point; `none` models the `UnicodeEncodeError`
Python raises on surrogates (and nothing above `0x10FFFF` exists in a
Python `str`). -/
def utf8EncodeChar (c : Nat) : Option Bytes :=
  if c < 128 then some [c]
  else if c < 2048 then some [192 + c / 64, 128 + c % 64]
  else if c < 65536 then
    if 55296 ≤ c ∧ c ≤ 57343 then none
    else some [224 + c / 4096, 128 + c / 64 % 64, 128 + c % 64]
  else if c < 1114112 then
    some [240 + c / 262144, 128 + c / 4096 % 64, 128 + c / 64 % 64, 128 + c % 64]
  else none

/-- `s.encode('utf-8')`: encode every code point or raise. -/
def utf8Encode : PyStr → Option Bytes
  | [] => some []
  | c :: rest =>
    match utf8EncodeChar c, utf8Encode rest with
    | some b, some bs => some (b ++ bs)
    | _, _ => none

/-- A continuation byte `0x80–0xBF`. -/
def contB (c : Nat) : Bool := 128 ≤ c && c ≤ 191

/-- One step of the strict UTF-8 decoder: consume the bytes of one scalar
value.  Rejects overlong forms, surrogates and values above `0x10FFFF`,
exactly as Python's strict `'utf-8'` codec does. -/
def utf8Step : Bytes → Option (Nat × Bytes)
  | [] => none
  | b :: r =>
    if b < 128 then some (b, r)
    else if b < 194 then none
    else if b ≤ 223 then
      match r with
      | c1 :: r1 => if contB c1 then some ((b - 192) * 64 + (c1 - 128), r1) else none
      | [] => none
    else if b ≤ 239 then
      match r with
      | c1 :: c2 :: r2 =>
        let lo := if b = 224 then 160 else 128
        let hi := if b = 237 then 159 else 191
        if lo ≤ c1 && c1 ≤ hi && contB c2 then
          some ((b - 224) * 4096 + (c1 - 128) * 64 + (c2 - 128), r2)
        else none
      | _ => none
    else if b ≤ 244 then
      match r with
      | c1 :: c2 :: c3 :: r3 =>
        let lo := if b = 240 then 144 else 128
        let hi := if b = 244 then 143 else 191
        if lo ≤ c1 && c1 ≤ hi && contB c2 && contB c3 then
          some ((b - 240) * 262144 + (c1 - 128) * 4096 + (c2 - 128) * 64 + (c3 - 128), r3)
        else none
      | _ => none
    else none

/-- The strict decoder loop, driven by a fuel argument so the definition is
structurally recursive; each step consumes at least one byte, so a fuel of
`bs.length` is always sufficient. -/
def utf8DecodeGo : Nat → Bytes → Option PyStr
  | _, [] => some []
  | 0, _ :: _ => none
  | fuel + 1, b :: rest =>
    match utf8Step (b :: rest) with
    | some (c, r) => (utf8DecodeGo fuel r).map (c :: ·)
    | none => none

/-- `b.decode('utf-8')` with strict error handling: `none` models the
`UnicodeDecodeError`. -/
def utf8Decode (bs : Bytes) : Option PyStr := utf8DecodeGo bs.length bs

/-! ## CPython's `hmac.compare_digest` -/

/-- CPython's `_tscmp` on two byte strings: if the lengths differ the result
starts at 1 and the left operand is replaced by `b` itself, and the loop
always runs over all of `b`, OR-ing the XOR of each byte pair into the
accumulator. -/
def tscmp (a b : Bytes) : Bool :=
  let left := if a.length = b.length then a else b
  let init := if a.length = b.length then 0 else 1
  ((left.zip b).foldl (fun acc p => acc ||| (p.1 ^^^ p.2)) init) = 0

/-- `_tscmp` instrumented with its loop-iteration count, the cost model for
the constant-time claim. -/
def tscmpInstr (a b : Bytes) : Bool × Nat :=
  let left := if a.length = b.length then a else b
  let init := if a.length = b.length then 0 else 1
  let r := (left.zip b).foldl (fun acc p => (acc.1 ||| (p.1 ^^^ p.2), acc.2 + 1)) (init, 0)
  (r.1 = 0, r.2)

/-- `hmac.compare_digest(a, b)` on two `str` arguments: CPython requires
both to be ASCII-only (`TypeError`, modelled as `none`, otherwise), then
compares their byte encodings in constant time. -/
def compareDigest (a b : PyStr) : Option Bool :=
  if (a.all (· < 128)) ∧ (b.all (· < 128)) then some (tscmp a b) else none

/-! ## The payload argument: Python's `Union[str, bytes]` -/

/-- A `Union[str, bytes]` payload as received by the static methods. -/
inductive Payload where
  /-- A `str` payload. -/
  | str (s : PyStr)
  /-- A `bytes` payload. -/
  | bytes (b : Bytes)

/-- The `isinstance(payload, str)` branch shared by `verify_signature` and
`create_signature`: a `str` payload is UTF-8 encoded (which raises — `none` —
on surrogates), a `bytes` payload is used as is. -/
def payloadBytes : Payload → Option Bytes
  | .str s => utf8Encode s
  | .bytes b => some b

/-! ## `WebhooksResource.verify_signature` -/

/-- `'t='`. -/
def tKey : PyStr := [116, 61]

/-- `'v1='`. -/
def v1Key : PyStr := [118, 49, 61]

/-- The body of `verify_signature`'s `try` block.  `none` marks the points
where the source raises one of the exceptions caught by its
`except (ValueError, TypeError, AttributeError)` clause; `some` carries the
value of a `return` statement. -/
def verifyBody (payload : Payload) (signature : PyStr) (secret : PyStr)
    (tolerance : Int) (now : Int) : Option Bool :=
  let elements := pySplit 44 signature
  let timestamp_element := elements.find? (fun el => tKey.isPrefixOf el)
  let hash_element := elements.find? (fun el => v1Key.isPrefixOf el)
  match timestamp_element, hash_element with
  | some tEl, some hEl =>
    match pyInt ((pySplit 61 tEl).getD 1 []) with
    | none => none
    | some timestamp =>
      let received_hash := (pySplit 61 hEl).getD 1 []
      if |now - timestamp| > tolerance then some false
      else
        match payloadBytes payload with
        | none => none
        | some payload_bytes =>
          match utf8Decode payload_bytes with
          | none => none
          | some decoded =>
            let signed_payload := intStr timestamp ++ 46 :: decoded
            match utf8Encode secret, utf8Encode signed_payload with
            | some key, some msg => compareDigest received_hash (hmacSha256Hex key msg)
            | _, _ => none
  | _, _ => some false

/-- `WebhooksResource.verify_signature`: the body above with its `except`
clause turning every caught exception into `False`. -/
def verify_signature (payload : Payload) (signature : PyStr) (secret : PyStr)
    (tolerance : Int) (now : Int) : Bool :=
  (verifyBody payload signature secret tolerance now).getD false

/-! ## `WebhooksResource.create_signature` -/

/-- The Python idiom `timestamp or int(time.time())` of `create_signature`:
`None` and `0` are falsy, so both fall back to the clock; every other
integer (negative ones included) is kept. -/
def pyOrInt (timestamp : Option Int) (now : Int) : Int :=
  match timestamp with
  | some t => if t = 0 then now else t
  | none => now

/-- `WebhooksResource.create_signature`.  `timestamp` is the optional
argument; `now` is `int(time.time())`.  The source computes
`ts = timestamp or int(time.time())`, so both `None` and `0` fall back to
the clock.  `none` models an uncaught `UnicodeEncodeError`/`UnicodeDecodeError`
escaping (this method has no `try` block). -/
def create_signature (payload : Payload) (secret : PyStr)
    (timestamp : Option Int) (now : Int) : Option PyStr :=
  let ts : Int := pyOrInt timestamp now
  match payloadBytes payload with
  | none => none
  | some payload_bytes =>
    match utf8Decode payload_bytes with
    | none => none
    | some decoded =>
      let signed_payload := intStr ts ++ 46 :: decoded
      match utf8Encode secret, utf8Encode signed_payload with
      | some key, some msg =>
        some (tKey ++ intStr ts ++ 44 :: v1Key ++ hmacSha256Hex key msg)
      | _, _ => none

/-! ## Python's `json.loads` and `WebhooksResource.parse_event`

Modelled from CPython's `json` decoder: RFC 8259 grammar plus the CPython
extensions `NaN`, `Infinity` and `-Infinity`, with `json.loads` whitespace
`' \t\n\r'`, strict rejection of unescaped control characters in strings,
surrogate-pair combination in `\uXXXX` escapes (four hex digits), and
last-wins duplicate object keys with first-occurrence ordering as in a
Python `dict`. Numeric tokens are kept as their source text (Python would
convert them to `int`/`float`; the conversion is injective on valid tokens
and none of the verified properties depend on it). -/

/-- A parsed JSON document as `json.loads` returns it. -/
inductive Json where
  /-- `null` / Python `None`. -/
  | null
  /-- `true`/`false`. -/
  | bool (b : Bool)
  /-- A numeric literal, kept as written (including `NaN`/`Infinity`). -/
  | num (raw : PyStr)
  /-- A string. -/
  | str (s : PyStr)
  /-- An array. -/
  | arr (xs : List Json)
  /-- An object: a Python `dict` as an insertion-ordered key/value list. -/
  | obj (kvs : List (PyStr × Json))

/-- JSON whitespace accepted by the decoder: space, tab, newline, return. -/
def jWs (c : Nat) : Bool := c = 32 || c = 9 || c = 10 || c = 13

/-- Skip JSON whitespace. -/
def skipWs (l : PyStr) : PyStr := l.dropWhile jWs

/-- Value of one hex digit. -/
def hexVal (c : Nat) : Option Nat :=
  if 48 ≤ c ∧ c ≤ 57 then some (c - 48)
  else if 97 ≤ c ∧ c ≤ 102 then some (c - 87)
  else if 65 ≤ c ∧ c ≤ 70 then some (c - 55)
  else none

/-- Value of a four-hex-digit `\uXXXX` escape. -/
def hex4 (a b c d : Nat) : Option Nat := do
  let x ← hexVal a; let y ← hexVal b; let z ← hexVal c; let w ← hexVal d
  pure (x * 4096 + y * 256 + z * 16 + w)

/-- Scan a JSON string body after the opening quote: returns the code points
and the input after the closing quote.  Mirrors CPython's `py_scanstring`:
unescaped control characters are rejected, `\uXXXX` escapes of a high
surrogate followed by a low-surrogate escape are combined. -/
def scanString : Nat → PyStr → Option (PyStr × PyStr)
  | 0, _ => none
  | _ + 1, [] => none
  | fuel + 1, c :: rest =>
    if c = 34 then some ([], rest)
    else if c = 92 then
      match rest with
      | [] => none
      | e :: r =>
        if e = 117 then
          match r with
          | h1 :: h2 :: h3 :: h4 :: r4 =>
            match hex4 h1 h2 h3 h4 with
            | none => none
            | some u =>
              if 55296 ≤ u ∧ u ≤ 56319 then
                match r4 with
                | 92 :: 117 :: g1 :: g2 :: g3 :: g4 :: r8 =>
                  match hex4 g1 g2 g3 g4 with
                  | none => none
                  | some u2 =>
                    if 56320 ≤ u2 ∧ u2 ≤ 57343 then
                      (scanString fuel r8).map
                        (fun p => ((65536 + (u - 55296) * 1024 + (u2 - 56320)) :: p.1, p.2))
                    else (scanString fuel r4).map (fun p => (u :: p.1, p.2))
                | _ => (scanString fuel r4).map (fun p => (u :: p.1, p.2))
              else (scanString fuel r4).map (fun p => (u :: p.1, p.2))
          | _ => none
        else
          match (if e = 34 then some 34 else if e = 92 then some 92 else if e = 47 then some 47
                 else if e = 98 then some 8 else if e = 102 then some 12 else if e = 110 then some 10
                 else if e = 114 then some 13 else if e = 116 then some 9 else none) with
          | some d => (scanString fuel r).map (fun p => (d :: p.1, p.2))
          | none => none
    else if c < 32 then none
    else (scanString fuel rest).map (fun p => (c :: p.1, p.2))

/-- Scan the digit run at the head of the input. -/
def spanDigits (l : PyStr) : PyStr × PyStr := (l.takeWhile isDigitB, l.dropWhile isDigitB)

/-- Match the JSON `NUMBER_RE` at the head of the input and return the
matched token text: `-? (0 | [1-9][0-9]*) (. [0-9]+)? ([eE][+-]?[0-9]+)?`. -/
def scanNumber (l : PyStr) : Option (PyStr × PyStr) := do
  let (sgn, l1) := match l with
    | 45 :: r => (([45] : PyStr), r)
    | _ => ([], l)
  let (ipart, r1) ← match l1 with
    | 48 :: r => some (([48] : PyStr), r)
    | c :: r =>
      if 49 ≤ c ∧ c ≤ 57 then
        let (ds, r') := spanDigits r
        some (c :: ds, r')
      else none
    | [] => none
  let (fpart, r2) ← match r1 with
    | 46 :: r =>
      match spanDigits r with
      | ([], _) => none
      | (ds, r') => some (46 :: ds, r')
    | _ => some (([] : PyStr), r1)
  let (epart, r3) ← match r2 with
    | e :: r =>
      if e = 101 ∨ e = 69 then
        let (es, r') := match r with
          | 43 :: r'' => (([43] : PyStr), r'')
          | 45 :: r'' => (([45] : PyStr), r'')
          | _ => ([], r)
        match spanDigits r' with
        | ([], _) => none
        | (ds, r'') => some (e :: es ++ ds, r'')
      else some (([] : PyStr), r2)
    | [] => some ([], r2)
  pure (sgn ++ ipart ++ fpart ++ epart, r3)

/-- Insert into a Python `dict` modelled as an insertion-ordered key/value
list: an existing key keeps its position and takes the new value. -/
def dictInsert (k : PyStr) (v : Json) : List (PyStr × Json) → List (PyStr × Json)
  | [] => [(k, v)]
  | (k', v') :: rest => if k' = k then (k', v) :: rest else (k', v') :: dictInsert k v rest

/-- Fold parsed object members into a Python `dict`. -/
def pyDict (pairs : List (PyStr × Json)) : List (PyStr × Json) :=
  pairs.foldl (fun d p => dictInsert p.1 p.2 d) []

mutual

/-- Scan one JSON value at the head of the (already whitespace-skipped)
input. -/
def scanValue : Nat → PyStr → Option (Json × PyStr)
  | 0, _ => none
  | fuel + 1, l =>
    match l with
    | [] => none
    | 34 :: r => (scanString fuel r).map (fun p => (Json.str p.1, p.2))
    | 123 :: r =>
      match skipWs r with
      | 125 :: r2 => some (Json.obj [], r2)
      | r' => (scanMembers fuel r').map (fun p => (Json.obj (pyDict p.1), p.2))
    | 91 :: r =>
      match skipWs r with
      | 93 :: r2 => some (Json.arr [], r2)
      | r' => (scanElements fuel r').map (fun p => (Json.arr p.1, p.2))
    | 116 :: 114 :: 117 :: 101 :: r => some (Json.bool true, r)
    | 102 :: 97 :: 108 :: 115 :: 101 :: r => some (Json.bool false, r)
    | 110 :: 117 :: 108 :: 108 :: r => some (Json.null, r)
    | 78 :: 97 :: 78 :: r => some (Json.num [78, 97, 78], r)
    | 73 :: 110 :: 102 :: 105 :: 110 :: 105 :: 116 :: 121 :: r =>
      some (Json.num [73, 110, 102, 105, 110, 105, 116, 121], r)
    | 45 :: 73 :: 110 :: 102 :: 105 :: 110 :: 105 :: 116 :: 121 :: r =>
      some (Json.num [45, 73, 110, 102, 105, 110, 105, 116, 121], r)
    | _ => (scanNumber l).map (fun p => (Json.num p.1, p.2))

/-- Scan the comma-separated elements of a non-empty array, up to and
including the closing bracket. -/
def scanElements : Nat → PyStr → Option (List Json × PyStr)
  | 0, _ => none
  | fuel + 1, l => do
    let (v, r) ← scanValue fuel l
    match skipWs r with
    | 44 :: r2 => do
      let (vs, r3) ← scanElements fuel (skipWs r2)
      pure (v :: vs, r3)
    | 93 :: r2 => pure ([v], r2)
    | _ => none

/-- Scan the members of a non-empty object, up to and including the closing
brace.  Keys must be quoted strings. -/
def scanMembers : Nat → PyStr → Option (List (PyStr × Json) × PyStr)
  | 0, _ => none
  | fuel + 1, l =>
    match l with
    | 34 :: r => do
      let (k, r1) ← scanString fuel r
      match skipWs r1 with
      | 58 :: r2 => do
        let (v, r3) ← scanValue fuel (skipWs r2)
        match skipWs r3 with
        | 44 :: r4 => do
          let (kvs, r5) ← scanMembers fuel (skipWs r4)
          pure ((k, v) :: kvs, r5)
        | 125 :: r4 => pure ([(k, v)], r4)
        | _ => none
      | _ => none
    | _ => none

end

/-- `json.loads(s)` on a `str`: scan one value and require only whitespace
to remain.  `none` models the `json.JSONDecodeError`. -/
def jsonLoads (s : PyStr) : Option Json :=
  match scanValue (s.length + 1) (skipWs s) with
  | some (v, rest) => if skipWs rest = [] then some v else none
  | none => none

/-- The `ValueError` raised by `parse_event` on malformed payloads; the
field is the Python exception's message. -/
inductive PyErr where
  /-- `ValueError(msg)`. -/
  | valueError (msg : PyStr)

/-- The message of the exception `parse_event` raises:
`'Invalid webhook payload format'`. -/
def invalidFormatMsg : PyStr := strLit "Invalid webhook payload format"

/-- The decoding step of `parse_event`: `bytes` payloads are decoded as
UTF-8 (raising — `none` — on invalid encodings), `str` payloads pass
through. -/
def payloadStr : Payload → Option PyStr
  | .bytes b => utf8Decode b
  | .str s => some s

/-- `WebhooksResource.parse_event`: decode `bytes` payloads as UTF-8, parse
the string with `json.loads`, and convert the caught
`json.JSONDecodeError`/`UnicodeDecodeError` into a fresh
`ValueError('Invalid webhook payload format')`. -/
def parse_event (payload : Payload) : Except PyErr Json :=
  match payloadStr payload with
  | none => .error (PyErr.valueError invalidFormatMsg)
  | some s =>
    match jsonLoads s with
    | none => .error (PyErr.valueError invalidFormatMsg)
    | some v => .ok v

/-! ## Lemmas about `pySplit` -/

theorem pySplit_ne_nil (sep : Nat) (l : PyStr) : pySplit sep l ≠ [] := by
  cases l with
  | nil => simp [pySplit]
  | cons c rest =>
    simp only [pySplit]
    split_ifs
    · simp
    · split <;> simp

/-- Splitting a separator-free string yields the single field. -/
theorem pySplit_no_sep {sep : Nat} {l : PyStr} (h : ∀ c ∈ l, c ≠ sep) :
    pySplit sep l = [l] := by
  induction l with
  | nil => rfl
  | cons c rest ih =>
    have hc : c ≠ sep := h c (by simp)
    have := ih (fun d hd => h d (by simp [hd]))
    simp [pySplit, hc, this]

/-- Splitting at the first separator occurrence. -/
theorem pySplit_append {sep : Nat} {a b : PyStr} (h : ∀ c ∈ a, c ≠ sep) :
    pySplit sep (a ++ sep :: b) = a :: pySplit sep b := by
  induction a with
  | nil => simp [pySplit]
  | cons c rest ih =>
    have hc : c ≠ sep := h c (by simp)
    have := ih (fun d hd => h d (by simp [hd]))
    simp [pySplit, hc, this]

/-! ## Round trip between `intStr` and `pyInt` -/

/-- Any sufficient fuel computes the same digit string. -/
theorem natStrGo_eq {n : Nat} : ∀ {f1 f2 : Nat}, n < f1 → n < f2 →
    natStrGo f1 n = natStrGo f2 n := by
  induction n using Nat.strong_induction_on with
  | _ n ih =>
    intro f1 f2 h1 h2
    match f1, f2 with
    | g1 + 1, g2 + 1 =>
      simp only [natStrGo]
      split_ifs with h
      · rfl
      · have hd : n / 10 < n := Nat.div_lt_self (by omega) (by omega)
        rw [ih (n / 10) hd (show n / 10 < g1 by omega) (show n / 10 < g2 by omega)]

/-- The recursive unfolding of `natStr`. -/
theorem natStr_unfold (n : Nat) :
    natStr n = if n < 10 then [48 + n] else natStr (n / 10) ++ [48 + n % 10] := by
  show natStrGo (n + 1) n = _
  rw [natStrGo]
  split_ifs with h
  · rfl
  · rw [natStrGo_eq (Nat.lt_of_lt_of_le (Nat.div_lt_self (by omega) (by omega)) (by omega))
      (Nat.lt_succ_self _)]
    rfl

theorem natStr_digits {n : Nat} : ∀ c ∈ natStr n, 48 ≤ c ∧ c ≤ 57 := by
  induction n using Nat.strong_induction_on with
  | _ n ih =>
    rw [natStr_unfold]
    split_ifs with h
    · intro c hc
      simp at hc
      omega
    · intro c hc
      rw [List.mem_append] at hc
      rcases hc with hc | hc
      · exact ih (n / 10) (Nat.div_lt_self (by omega) (by omega)) c hc
      · simp at hc
        omega

theorem natStr_ne_nil {n : Nat} : natStr n ≠ [] := by
  rw [natStr_unfold]
  split_ifs <;> simp

/-- The folding step of `digitsVal` on one digit character. -/
def digitStep (a c : Nat) : Nat := a * 10 + (c - 48)

theorem digitsVal_all_digits {l : PyStr} (h : ∀ c ∈ l, isDigitB c) (acc : Nat) :
    digitsVal acc l = some (l.foldl digitStep acc) := by
  induction l generalizing acc with
  | nil => rfl
  | cons c rest ih =>
    have hc : isDigitB c := h c (by simp)
    rw [digitsVal.eq_def]
    simp only [if_pos hc, ih (fun d hd => h d (by simp [hd]))]
    simp [digitStep]

theorem foldl_digitStep_natStr (n : Nat) : ∀ acc,
    (natStr n).foldl digitStep acc = acc * 10 ^ (natStr n).length + n := by
  induction n using Nat.strong_induction_on with
  | _ n ih =>
    intro acc
    rw [natStr_unfold]
    split_ifs with h
    · simp [digitStep]
    · rw [List.foldl_append, ih (n / 10) (Nat.div_lt_self (by omega) (by omega)) acc]
      simp [digitStep, pow_succ]
      ring_nf
      omega

theorem parseDigits_natStr (n : Nat) : parseDigits (natStr n) = some n := by
  obtain ⟨c, rest, hcr⟩ : ∃ c rest, natStr n = c :: rest := by
    cases h : natStr n with
    | nil => exact absurd h natStr_ne_nil
    | cons c rest => exact ⟨c, rest, rfl⟩
  have hdig : ∀ d ∈ natStr n, 48 ≤ d ∧ d ≤ 57 := natStr_digits
  have hc : isDigitB c := by
    have := hdig c (by simp [hcr])
    simp [isDigitB]
    omega
  have hrest : ∀ d ∈ rest, isDigitB d := by
    intro d hd
    have := hdig d (by simp [hcr, hd])
    simp [isDigitB]
    omega
  have hfold := foldl_digitStep_natStr n 0
  rw [hcr] at hfold
  simp only [List.foldl_cons] at hfold
  have : digitStep 0 c = c - 48 := by simp [digitStep]
  rw [this] at hfold
  simp [parseDigits, hcr, hc, digitsVal_all_digits hrest, hfold]

theorem pyStrip_of_no_space {l : PyStr} (h : ∀ c ∈ l, isPySpace c = false) :
    pyStrip l = l := by
  have h1 : l.dropWhile isPySpace = l := by
    cases l with
    | nil => rfl
    | cons c rest => simp [List.dropWhile, h c (by simp)]
  have h2 : l.reverse.dropWhile isPySpace = l.reverse := by
    cases hr : l.reverse with
    | nil => rfl
    | cons c rest =>
      have hc : c ∈ l := by
        have : c ∈ l.reverse := by simp [hr]
        simpa using this
      simp [List.dropWhile, h c hc]
  simp [pyStrip, h1, h2]

/-- Code points of `intStr`: a digit or a leading minus sign. -/
theorem intStr_chars {t : Int} : ∀ c ∈ intStr t, c = 45 ∨ (48 ≤ c ∧ c ≤ 57) := by
  intro c hc
  unfold intStr at hc
  split_ifs at hc
  · rcases List.mem_cons.mp hc with h | h
    · exact Or.inl h
    · exact Or.inr (natStr_digits c h)
  · exact Or.inr (natStr_digits c hc)

/-- Parsing back a rendered integer recovers it — the core of the
header round trip. -/
theorem pyInt_intStr (t : Int) : pyInt (intStr t) = some t := by
  have hnos : ∀ c ∈ intStr t, isPySpace c = false := by
    intro c hc
    rcases intStr_chars c hc with h | h <;> simp [isPySpace] <;> omega
  by_cases ht : t < 0
  · have key : pyStrip (intStr t) = 45 :: natStr t.natAbs := by
      rw [pyStrip_of_no_space hnos]
      simp [intStr, ht]
    rw [pyInt, key]
    simp only [reduceIte]
    rw [parseDigits_natStr]
    show some (-(t.natAbs : Int)) = some t
    simp only [Option.some.injEq]
    omega
  · obtain ⟨c, rest, hcr⟩ : ∃ c rest, natStr t.natAbs = c :: rest := by
      cases h : natStr t.natAbs with
      | nil => exact absurd h natStr_ne_nil
      | cons c rest => exact ⟨c, rest, rfl⟩
    have hc := natStr_digits c (hcr ▸ List.mem_cons_self c rest)
    have key : pyStrip (intStr t) = c :: rest := by
      rw [pyStrip_of_no_space hnos]
      simp [intStr, ht, hcr]
    rw [pyInt, key]
    simp only []
    rw [if_neg (by omega), if_neg (by omega), ← hcr, parseDigits_natStr]
    show some ((t.natAbs : Int)) = some t
    simp only [Option.some.injEq]
    omega

/-! ## Facts about the hex digest -/

/-- Every byte of a serialized SHA-256 state is below 256. -/
theorem sha2StBytes_lt (s : Sha2St) : ∀ b ∈ sha2StBytes s, b < 256 := by
  intro b hb
  simp [sha2StBytes, wordBytes] at hb
  rcases hb with h | h | h | h | h | h | h | h <;> rcases h with h | h | h | h <;> omega

/-- Every byte of a SHA-256 digest is below 256. -/
theorem sha256_lt (m : Bytes) : ∀ b ∈ sha256 m, b < 256 :=
  sha2StBytes_lt _

/-- Every byte of an HMAC-SHA256 digest is below 256. -/
theorem hmacSha256_lt (key msg : Bytes) : ∀ b ∈ hmacSha256 key msg, b < 256 :=
  sha2StBytes_lt _

/-- A SHA-256 digest has 32 bytes. -/
theorem sha256_length (m : Bytes) : (sha256 m).length = 32 := by
  simp [sha256, sha2StBytes, wordBytes]

/-- An HMAC-SHA256 digest has 32 bytes. -/
theorem hmacSha256_length (key msg : Bytes) : (hmacSha256 key msg).length = 32 :=
  sha256_length _

/-- Hex rendering doubles the length. -/
theorem bytesHex_length (bs : Bytes) : (bytesHex bs).length = 2 * bs.length := by
  induction bs with
  | nil => rfl
  | cons b rest ih => simp [bytesHex] at ih ⊢; omega

/-- The hex digest of an HMAC has 64 characters. -/
theorem hmacSha256Hex_length (key msg : Bytes) : (hmacSha256Hex key msg).length = 64 := by
  rw [hmacSha256Hex, bytesHex_length, hmacSha256_length]

/-- Characters of the hex rendering of genuine bytes: decimal digits or
lowercase `a`–`f`. -/
theorem bytesHex_chars {bs : Bytes} (hb : ∀ b ∈ bs, b < 256) :
    ∀ c ∈ bytesHex bs, (48 ≤ c ∧ c ≤ 57) ∨ (97 ≤ c ∧ c ≤ 102) := by
  intro c hc
  simp [bytesHex] at hc
  obtain ⟨b, hbmem, hbc⟩ := hc
  have hblt := hb b hbmem
  rcases hbc with h | h <;> subst h <;> simp only [nibbleChar] <;> split_ifs <;> omega

/-- Characters of an HMAC hex digest are lowercase hex. -/
theorem hmacSha256Hex_chars (key msg : Bytes) :
    ∀ c ∈ hmacSha256Hex key msg, (48 ≤ c ∧ c ≤ 57) ∨ (97 ≤ c ∧ c ≤ 102) :=
  bytesHex_chars (hmacSha256_lt key msg)

/-! ## Facts about `tscmp` / `compare_digest` -/

theorem nat_or_eq_zero {a b : Nat} : a ||| b = 0 ↔ a = 0 ∧ b = 0 := by
  constructor
  · intro h
    have ha : a = 0 := Nat.eq_of_testBit_eq (fun i => by
      have := congrArg (fun n => n.testBit i) h
      simp [Nat.testBit_or] at this
      simp [this.1])
    have hb : b = 0 := Nat.eq_of_testBit_eq (fun i => by
      have := congrArg (fun n => n.testBit i) h
      simp [Nat.testBit_or] at this
      simp [this.2])
    exact ⟨ha, hb⟩
  · rintro ⟨rfl, rfl⟩
    rfl

theorem foldl_or_eq_zero {l : List (Nat × Nat)} {init : Nat} :
    l.foldl (fun acc p => acc ||| (p.1 ^^^ p.2)) init = 0 ↔
      init = 0 ∧ ∀ p ∈ l, p.1 = p.2 := by
  induction l generalizing init with
  | nil => simp
  | cons q rest ih =>
    simp only [List.foldl_cons, ih, List.mem_cons, nat_or_eq_zero, Nat.xor_eq_zero]
    constructor
    · rintro ⟨⟨h1, h2⟩, hall⟩
      exact ⟨h1, fun p hp => hp.elim (fun e => e ▸ h2) (hall p)⟩
    · rintro ⟨h0, hall⟩
      exact ⟨⟨h0, hall q (Or.inl rfl)⟩, fun p hp => hall p (Or.inr hp)⟩

theorem zip_self_eq {a b : Bytes} (hl : a.length = b.length)
    (h : ∀ p ∈ a.zip b, p.1 = p.2) : a = b := by
  induction a generalizing b with
  | nil => cases b with
    | nil => rfl
    | cons x xs => simp at hl
  | cons x xs ih =>
    cases b with
    | nil => simp at hl
    | cons y ys =>
      have hx : x = y := h (x, y) (by simp)
      have := ih (by simpa using hl) (fun p hp => h p (by simp [hp]))
      simp [hx, this]

theorem mem_zip_self {l : Bytes} : ∀ p ∈ l.zip l, p.1 = p.2 := by
  induction l with
  | nil => simp
  | cons x xs ih =>
    intro p hp
    rcases List.mem_cons.mp (by simpa [List.zip_cons_cons] using hp) with rfl | hp2
    · rfl
    · exact ih p hp2

/-- `_tscmp` decides equality of byte strings. -/
theorem tscmp_iff {a b : Bytes} : tscmp a b = true ↔ a = b := by
  simp only [tscmp]
  by_cases hlen : a.length = b.length
  · simp only [if_pos hlen, decide_eq_true_eq, foldl_or_eq_zero]
    constructor
    · rintro ⟨-, hall⟩
      exact zip_self_eq hlen hall
    · rintro rfl
      exact ⟨by simp, mem_zip_self⟩
  · simp only [if_neg hlen, decide_eq_true_eq, foldl_or_eq_zero]
    constructor
    · rintro ⟨h, -⟩
      exact absurd h one_ne_zero
    · rintro rfl
      exact absurd rfl hlen

/-- The instrumented comparison agrees with `tscmp` and its loop runs
exactly `b.length` iterations — one per byte of the right operand,
independent of the operand contents. -/
theorem tscmpInstr_spec (a b : Bytes) : tscmpInstr a b = (tscmp a b, b.length) := by
  have key : ∀ (l : List (Nat × Nat)) (init k : Nat),
      l.foldl (fun acc p => (acc.1 ||| (p.1 ^^^ p.2), acc.2 + 1)) (init, k) =
        (l.foldl (fun acc p => acc ||| (p.1 ^^^ p.2)) init, k + l.length) := by
    intro l
    induction l with
    | nil => simp
    | cons q rest ih =>
      intro init k
      simp [ih]
      omega
  have hzlen : ∀ (left : Bytes), left.length = b.length → (left.zip b).length = b.length := by
    intro left hl
    simp [List.length_zip, hl]
  unfold tscmpInstr tscmp
  by_cases hlen : a.length = b.length
  · simp only [if_pos hlen, key]
    simp [hzlen a hlen]
  · simp only [if_neg hlen, key]
    simp [hzlen b rfl]

/-- `compare_digest` on equal ASCII strings returns `True`. -/
theorem compareDigest_self {d : PyStr} (hd : ∀ c ∈ d, c < 128) :
    compareDigest d d = some true := by
  have : d.all (· < 128) = true := by
    rw [List.all_eq_true]
    intro c hc
    simpa using hd c hc
  simp [compareDigest, this, tscmp_iff]

/-- A successful `compare_digest` reveals equality of its operands. -/
theorem compareDigest_eq {a b : PyStr} (h : compareDigest a b = some true) : a = b := by
  by_cases hc : (a.all (· < 128) = true) ∧ (b.all (· < 128) = true)
  · rw [compareDigest, if_pos hc] at h
    exact tscmp_iff.mp (Option.some.inj h)
  · rw [compareDigest, if_neg hc] at h
    exact absurd h (by simp)

/-! ## UTF-8 round trip -/

set_option maxRecDepth 8192 in
/-- Each decoding step consumes exactly the encoding of the scalar it
produces. -/
theorem utf8Step_encode {bs : Bytes} {c : Nat} {r : Bytes}
    (h : utf8Step bs = some (c, r)) :
    ∃ pre, bs = pre ++ r ∧ utf8EncodeChar c = some pre := by
  rcases bs with _ | ⟨b, _ | ⟨c1, _ | ⟨c2, _ | ⟨c3, rest⟩⟩⟩⟩
  · simp [utf8Step] at h
  all_goals simp only [utf8Step, contB, Bool.and_eq_true, decide_eq_true_eq] at h
  all_goals split_ifs at h <;> cases h
  all_goals
    first
      | (exfalso; omega)
      | (refine ⟨[c], by simp, ?_⟩
         rw [utf8EncodeChar, if_pos (by omega)])
      | (refine ⟨[b, c1], by simp, ?_⟩
         rw [utf8EncodeChar, if_neg (by omega), if_pos (by omega)]
         simp only [Option.some.injEq, List.cons.injEq, and_true]
         omega)
      | (refine ⟨[b, c1, c2], by simp, ?_⟩
         rw [utf8EncodeChar, if_neg (by omega), if_neg (by omega), if_pos (by omega),
             if_neg (by omega)]
         simp only [Option.some.injEq, List.cons.injEq, and_true]
         omega)
      | (refine ⟨[b, c1, c2, c3], by simp, ?_⟩
         rw [utf8EncodeChar, if_neg (by omega), if_neg (by omega), if_neg (by omega),
             if_pos (by omega)]
         simp only [Option.some.injEq, List.cons.injEq, and_true]
         omega)

/-- Concatenating encodable strings encodes to the concatenation. -/
theorem utf8Encode_append {a b : PyStr} {ea eb : Bytes}
    (ha : utf8Encode a = some ea) (hb : utf8Encode b = some eb) :
    utf8Encode (a ++ b) = some (ea ++ eb) := by
  induction a generalizing ea with
  | nil =>
    simp only [utf8Encode, Option.some.injEq] at ha
    subst ha
    simpa using hb
  | cons c rest ih =>
    simp only [utf8Encode] at ha
    rcases hc : utf8EncodeChar c with _ | pre <;> rw [hc] at ha
    · simp at ha
    · rcases hr : utf8Encode rest with _ | er <;> rw [hr] at ha
      · simp at ha
      · simp only [Option.some.injEq] at ha
        have h2 := ih hr
        rw [List.cons_append]
        have hexp : utf8Encode (c :: (rest ++ b)) =
            match utf8EncodeChar c, utf8Encode (rest ++ b) with
            | some x, some xs => some (x ++ xs)
            | _, _ => none := rfl
        rw [hexp, hc, h2, ← ha]
        simp

/-- ASCII-only strings encode to themselves. -/
theorem utf8Encode_ascii {l : PyStr} (h : ∀ c ∈ l, c < 128) :
    utf8Encode l = some l := by
  induction l with
  | nil => rfl
  | cons c rest ih =>
    have hc : c < 128 := h c (by simp)
    simp only [utf8Encode, utf8EncodeChar, if_pos hc,
      ih (fun d hd => h d (by simp [hd]))]
    rfl

/-- The decoder step consumes at least one byte. -/
theorem utf8Step_length {bs : Bytes} {c : Nat} {r : Bytes}
    (h : utf8Step bs = some (c, r)) : r.length < bs.length := by
  obtain ⟨pre, hsplit, henc⟩ := utf8Step_encode h
  have hpre : pre ≠ [] := by
    intro hnil
    rw [hnil] at henc
    simp only [utf8EncodeChar] at henc
    split_ifs at henc <;> simp at henc
  rw [hsplit]
  cases pre with
  | nil => exact absurd rfl hpre
  | cons p ps =>
    simp only [List.cons_append, List.length_cons, List.length_append]
    omega

/-- Any sufficient fuel decodes the same. -/
theorem utf8DecodeGo_eq : ∀ {f1 : Nat} {bs : Bytes} {f2 : Nat}, bs.length ≤ f1 →
    bs.length ≤ f2 → utf8DecodeGo f1 bs = utf8DecodeGo f2 bs := by
  intro f1
  induction f1 with
  | zero =>
    intro bs f2 h1 h2
    have : bs = [] := by
      cases bs with
      | nil => rfl
      | cons b r => simp at h1
    subst this
    cases f2 <;> rfl
  | succ g1 ih =>
    intro bs f2 h1 h2
    cases bs with
    | nil => cases f2 <;> rfl
    | cons b rest =>
      obtain ⟨g2, rfl⟩ : ∃ g2, f2 = g2 + 1 := ⟨f2 - 1, by simp at h2; omega⟩
      simp only [utf8DecodeGo]
      rcases hst : utf8Step (b :: rest) with _ | ⟨c, r⟩
      · rfl
      · have hlt := utf8Step_length hst
        simp only [List.length_cons] at h1 h2 hlt
        simp only []
        rw [ih (show List.length r ≤ g1 by omega) (show List.length r ≤ g2 by omega)]

/-- The recursive unfolding of `utf8Decode` on a nonempty input. -/
theorem utf8Decode_cons (b : Nat) (rest : Bytes) :
    utf8Decode (b :: rest) =
      match utf8Step (b :: rest) with
      | some (c, r) => (utf8Decode r).map (c :: ·)
      | none => none := by
  show utf8DecodeGo (b :: rest).length (b :: rest) = _
  rw [List.length_cons, utf8DecodeGo]
  rcases hst : utf8Step (b :: rest) with _ | ⟨c, r⟩
  · rfl
  · have hlt := utf8Step_length hst
    simp only [List.length_cons] at hlt
    simp only []
    rw [utf8DecodeGo_eq (by omega) le_rfl]
    rfl

/-- Strict decoding inverts encoding: whatever `bytes.decode('utf-8')`
accepts re-encodes to the original bytes. -/
theorem utf8Encode_decode {bs : Bytes} {s : PyStr} (h : utf8Decode bs = some s) :
    utf8Encode s = some bs := by
  suffices H : ∀ (n : Nat) (bs : Bytes) (s : PyStr), bs.length ≤ n →
      utf8Decode bs = some s → utf8Encode s = some bs from H bs.length bs s le_rfl h
  intro n
  induction n with
  | zero =>
    intro bs s hlen h
    have hnil : bs = [] := by
      cases bs with
      | nil => rfl
      | cons b r => simp at hlen
    subst hnil
    have : s = [] := by simpa [utf8Decode, utf8DecodeGo] using h.symm
    subst this
    rfl
  | succ m ih =>
    intro bs s hlen h
    cases bs with
    | nil =>
      have : s = [] := by simpa [utf8Decode, utf8DecodeGo] using h.symm
      subst this
      rfl
    | cons b rest =>
      rw [utf8Decode_cons] at h
      rcases hst : utf8Step (b :: rest) with _ | ⟨c, r⟩ <;> rw [hst] at h <;>
        simp only [] at h
      · simp at h
      · rcases hd : utf8Decode r with _ | s2 <;> rw [hd] at h
        · simp at h
        · simp only [Option.map_some', Option.some.injEq] at h
          obtain ⟨pre, hsplit, henc⟩ := utf8Step_encode hst
          have hlt := utf8Step_length hst
          have hrec : utf8Encode s2 = some r := by
            refine ih r s2 ?_ hd
            simp only [List.length_cons] at hlen hlt
            omega
          rw [← h]
          simp only [utf8Encode, henc, hrec]
          rw [hsplit]

/-! ## Structure of created and verified headers -/

/-- Characters of `intStr` are never a comma, never an equals sign, and
always ASCII. -/
theorem intStr_sep {t : Int} : ∀ c ∈ intStr t, c ≠ 44 ∧ c ≠ 61 ∧ c < 128 := by
  intro c hc
  rcases intStr_chars c hc with h | h <;> omega

/-- Characters of a hex digest are never a comma, never an equals sign, and
always ASCII. -/
theorem hexDigest_sep (key msg : Bytes) :
    ∀ c ∈ hmacSha256Hex key msg, c ≠ 44 ∧ c ≠ 61 ∧ c < 128 := by
  intro c hc
  rcases hmacSha256Hex_chars key msg c hc with h | h <;> omega

/-- Inversion of a successful `create_signature`: the produced header is
`t=<ts>,v1=<digest>` for the effective timestamp and the HMAC of the
canonical signed string. -/
theorem create_signature_eq {p : Payload} {s : PyStr} {T : Option Int} {now : Int} {h : PyStr}
    (hc : create_signature p s T now = some h) :
    ∃ pb d key msg,
      payloadBytes p = some pb ∧ utf8Decode pb = some d ∧
      utf8Encode s = some key ∧
      utf8Encode (intStr (pyOrInt T now) ++ 46 :: d) = some msg ∧
      h = tKey ++ intStr (pyOrInt T now) ++ 44 :: v1Key ++ hmacSha256Hex key msg := by
  unfold create_signature at hc
  rcases hpb : payloadBytes p with _ | pb <;> rw [hpb] at hc
  · simp at hc
  · simp only [] at hc
    rcases hd : utf8Decode pb with _ | d <;> rw [hd] at hc
    · simp at hc
    · simp only [] at hc
      rcases hk : utf8Encode s with _ | key <;>
        rcases hm : utf8Encode (intStr (pyOrInt T now) ++ 46 :: d) with _ | msg <;>
        rw [hk, hm] at hc <;> simp only [] at hc
      · simp at hc
      · simp at hc
      · simp at hc
      · exact ⟨pb, d, key, msg, rfl, hd, rfl, hm, (Option.some.inj hc).symm⟩

/-- Splitting the created header at commas isolates the two tokens. -/
theorem header_split (ts : Int) (dg : PyStr) (hdg : ∀ c ∈ dg, c ≠ 44 ∧ c ≠ 61 ∧ c < 128) :
    pySplit 44 (tKey ++ intStr ts ++ 44 :: v1Key ++ dg) =
      [116 :: 61 :: intStr ts, 118 :: 49 :: 61 :: dg] := by
  have h1 : tKey ++ intStr ts ++ 44 :: v1Key ++ dg =
      (116 :: 61 :: intStr ts) ++ 44 :: (118 :: 49 :: 61 :: dg) := by
    simp [tKey, v1Key]
  rw [h1, pySplit_append, pySplit_no_sep]
  · intro c hcm
    simp only [List.mem_cons] at hcm
    rcases hcm with rfl | rfl | rfl | hcm
    · omega
    · omega
    · omega
    · exact (hdg c hcm).1
  · intro c hcm
    simp only [List.mem_cons] at hcm
    rcases hcm with rfl | rfl | hcm
    · omega
    · omega
    · exact (intStr_sep c hcm).1

/-- The `t=` token of a well-formed header parses back to its timestamp. -/
theorem tTok_value (ts : Int) :
    (pySplit 61 (116 :: 61 :: intStr ts)).getD 1 [] = intStr ts := by
  have : pySplit 61 (intStr ts) = [intStr ts] :=
    pySplit_no_sep (fun c hc => (intStr_sep c hc).2.1)
  simp [pySplit, this]

/-- The `v1=` token of a well-formed header carries exactly its digest. -/
theorem vTok_value (dg : PyStr) (hdg : ∀ c ∈ dg, c ≠ 44 ∧ c ≠ 61 ∧ c < 128) :
    (pySplit 61 (118 :: 49 :: 61 :: dg)).getD 1 [] = dg := by
  have : pySplit 61 dg = [dg] := pySplit_no_sep (fun c hc => (hdg c hc).2.1)
  simp [pySplit, this]

/-- Verifying a header produced by `create_signature` with the same payload
and secret reduces to the replay-window check on the effective timestamp. -/
theorem verify_created {p : Payload} {s : PyStr} {T : Option Int} {nowS : Int} {h : PyStr}
    (hc : create_signature p s T nowS = some h) (tol now : Int) :
    verify_signature p h s tol now = decide (|now - pyOrInt T nowS| ≤ tol) := by
  obtain ⟨pb, d, key, msg, hpb, hd, hk, hm, hh⟩ := create_signature_eq hc
  subst hh
  set ts := pyOrInt T nowS with hts
  set dg := hmacSha256Hex key msg with hdg
  have hdgc : ∀ c ∈ dg, c ≠ 44 ∧ c ≠ 61 ∧ c < 128 := hexDigest_sep key msg
  have hfind1 : List.find? (fun el => tKey.isPrefixOf el)
      [116 :: 61 :: intStr ts, 118 :: 49 :: 61 :: dg] = some (116 :: 61 :: intStr ts) := by
    simp [List.find?, tKey, List.isPrefixOf]
  have hfind2 : List.find? (fun el => v1Key.isPrefixOf el)
      [116 :: 61 :: intStr ts, 118 :: 49 :: 61 :: dg] = some (118 :: 49 :: 61 :: dg) := by
    simp [List.find?, v1Key, List.isPrefixOf]
  simp only [verify_signature, verifyBody]
  rw [header_split ts dg hdgc, hfind1, hfind2]
  simp only [tTok_value, vTok_value dg hdgc, pyInt_intStr]
  by_cases hwin : |now - ts| > tol
  · rw [if_pos hwin]
    simp only [Option.getD_some]
    have : ¬ |now - ts| ≤ tol := by omega
    simp [this]
  · rw [if_neg hwin, hpb]
    simp only [hd, hk, hm]
    rw [compareDigest_self (fun c hcm => (hdgc c hcm).2.2)]
    simp only [Option.getD_some]
    have : |now - ts| ≤ tol := by omega
    simp [this]

/-- Inversion of a successful verification: `True` is only returned when the
header splits into a first `t=` token whose value parses to a timestamp
inside the tolerance window, the payload decodes as UTF-8, and the first
`v1=` token's value equals the HMAC hex digest of the canonical signed
string. -/
theorem verify_signature_true {p : Payload} {sig s : PyStr} {tol now : Int}
    (h : verify_signature p sig s tol now = true) :
    ∃ tEl hEl ts pb d key msg,
      (pySplit 44 sig).find? (fun el => tKey.isPrefixOf el) = some tEl ∧
      (pySplit 44 sig).find? (fun el => v1Key.isPrefixOf el) = some hEl ∧
      pyInt ((pySplit 61 tEl).getD 1 []) = some ts ∧
      |now - ts| ≤ tol ∧
      payloadBytes p = some pb ∧
      utf8Decode pb = some d ∧
      utf8Encode s = some key ∧
      utf8Encode (intStr ts ++ 46 :: d) = some msg ∧
      (pySplit 61 hEl).getD 1 [] = hmacSha256Hex key msg := by
  simp only [verify_signature, verifyBody] at h
  rcases hf1 : (pySplit 44 sig).find? (fun el => tKey.isPrefixOf el) with _ | tEl <;>
    rw [hf1] at h <;>
    rcases hf2 : (pySplit 44 sig).find? (fun el => v1Key.isPrefixOf el) with _ | hEl <;>
    rw [hf2] at h <;>
    simp only [] at h
  · simp at h
  · simp at h
  · simp at h
  rcases hts : pyInt ((pySplit 61 tEl).getD 1 []) with _ | ts <;> rw [hts] at h <;>
    simp only [] at h
  · simp at h
  by_cases hwin : |now - ts| > tol
  · rw [if_pos hwin] at h
    simp at h
  rw [if_neg hwin] at h
  rcases hpb : payloadBytes p with _ | pb <;> rw [hpb] at h <;> simp only [] at h
  · simp at h
  rcases hd : utf8Decode pb with _ | d <;> rw [hd] at h <;> simp only [] at h
  · simp at h
  rcases hk : utf8Encode s with _ | key <;>
    rcases hm : utf8Encode (intStr ts ++ 46 :: d) with _ | msg <;>
    rw [hk, hm] at h <;> simp only [] at h
  · simp at h
  · simp at h
  · simp at h
  have hcmp : compareDigest ((pySplit 61 hEl).getD 1 []) (hmacSha256Hex key msg) = some true := by
    rcases hcd : compareDigest ((pySplit 61 hEl).getD 1 []) (hmacSha256Hex key msg) with _ | b <;>
      rw [hcd] at h
    · simp at h
    · rcases b with _ | _
      · simp at h
      · rfl
  exact ⟨tEl, hEl, ts, pb, d, key, msg, rfl, rfl, hts, by omega, rfl, hd, rfl, hm,
    compareDigest_eq hcmp⟩

/-- The canonical signed string, at the byte level: the UTF-8 encoding of
`"{ts}.{decoded}"` is exactly the decimal timestamp bytes, a `.`, and the
raw payload bytes. -/
theorem signed_msg_bytes {pb : Bytes} {d : PyStr} (ts : Int) (hd : utf8Decode pb = some d) :
    utf8Encode (intStr ts ++ 46 :: d) = some (intStr ts ++ 46 :: pb) := by
  have h1 : utf8Encode (intStr ts) = some (intStr ts) :=
    utf8Encode_ascii (fun c hc => (intStr_sep c hc).2.2)
  have h2 : utf8Encode d = some pb := utf8Encode_decode hd
  have h3 : utf8Encode ([46] ++ d) = some ([46] ++ pb) :=
    utf8Encode_append (by rfl) h2
  have h4 := utf8Encode_append h1 h3
  simpa using h4

/-- Verification fails outright when the header has no `t=` token or no
`v1=` token. -/
theorem verify_no_token {p : Payload} {sig s : PyStr} {tol now : Int}
    (h : (pySplit 44 sig).find? (fun el => tKey.isPrefixOf el) = none ∨
         (pySplit 44 sig).find? (fun el => v1Key.isPrefixOf el) = none) :
    verify_signature p sig s tol now = false := by
  simp only [verify_signature, verifyBody]
  rcases h with h | h
  · rw [h]
    rfl
  · rcases hf1 : (pySplit 44 sig).find? (fun el => tKey.isPrefixOf el) with _ | tEl <;>
      rw [h] <;> rfl

/-- A string with `t=` as a prefix starts `116 :: 61 :: _`. -/
theorem tKey_prefix_shape {a : PyStr} (h : tKey.isPrefixOf a = true) :
    ∃ ar, a = 116 :: 61 :: ar := by
  match a with
  | [] => simp [tKey, List.isPrefixOf] at h
  | [x] => simp [tKey, List.isPrefixOf] at h
  | x :: y :: ar =>
    simp only [tKey, List.isPrefixOf, List.isPrefixOf_nil_left, Bool.and_true,
      Bool.and_eq_true, beq_iff_eq] at h
    exact ⟨ar, by rw [h.1, h.2]⟩

/-- A string with `v1=` as a prefix starts `118 :: 49 :: 61 :: _`. -/
theorem v1Key_prefix_shape {b : PyStr} (h : v1Key.isPrefixOf b = true) :
    ∃ br, b = 118 :: 49 :: 61 :: br := by
  match b with
  | [] => simp [v1Key, List.isPrefixOf] at h
  | [x] => simp [v1Key, List.isPrefixOf] at h
  | [x, y] => simp [v1Key, List.isPrefixOf] at h
  | x :: y :: z :: br =>
    simp only [v1Key, List.isPrefixOf, List.isPrefixOf_nil_left, Bool.and_true,
      Bool.and_eq_true, beq_iff_eq] at h
    exact ⟨br, by rw [h.1, h.2.1, h.2.2]⟩

/-- The order of the `t=` and `v1=` tokens in a two-token header does not
change the verification result. -/
theorem verify_order {p : Payload} {s : PyStr} {tol now : Int} {a b : PyStr}
    (ha44 : ∀ c ∈ a, c ≠ 44) (hb44 : ∀ c ∈ b, c ≠ 44)
    (hat : tKey.isPrefixOf a = true) (hbv : v1Key.isPrefixOf b = true) :
    verify_signature p (a ++ 44 :: b) s tol now =
      verify_signature p (b ++ 44 :: a) s tol now := by
  obtain ⟨ar, rfl⟩ := tKey_prefix_shape hat
  obtain ⟨br, rfl⟩ := v1Key_prefix_shape hbv
  have hsp1 : pySplit 44 (116 :: 61 :: ar ++ 44 :: (118 :: 49 :: 61 :: br)) =
      [116 :: 61 :: ar, 118 :: 49 :: 61 :: br] := by
    rw [pySplit_append ha44, pySplit_no_sep hb44]
  have hsp2 : pySplit 44 (118 :: 49 :: 61 :: br ++ 44 :: (116 :: 61 :: ar)) =
      [118 :: 49 :: 61 :: br, 116 :: 61 :: ar] := by
    rw [pySplit_append hb44, pySplit_no_sep ha44]
  have hta : tKey.isPrefixOf (116 :: 61 :: ar) = true := hat
  have htb : tKey.isPrefixOf (118 :: 49 :: 61 :: br) = false := by
    simp [tKey, List.isPrefixOf]
  have hvb : v1Key.isPrefixOf (118 :: 49 :: 61 :: br) = true := hbv
  have hva : v1Key.isPrefixOf (116 :: 61 :: ar) = false := by
    simp [v1Key, List.isPrefixOf]
  simp only [verify_signature, verifyBody, hsp1, hsp2, List.find?, hta, htb, hvb, hva]

/-- A `bytes` payload that is not valid UTF-8 can never verify: every path
of the body either fails earlier or raises `UnicodeDecodeError` at the
decode, and the `except` clause turns that into `False`. -/
theorem verify_bad_utf8 {b : Bytes} (hb : utf8Decode b = none)
    (sig s : PyStr) (tol now : Int) :
    verify_signature (Payload.bytes b) sig s tol now = false := by
  simp only [verify_signature, verifyBody]
  rcases hf1 : (pySplit 44 sig).find? (fun el => tKey.isPrefixOf el) with _ | tEl
  · rfl
  rcases hf2 : (pySplit 44 sig).find? (fun el => v1Key.isPrefixOf el) with _ | hEl
  · rfl
  simp only []
  rcases hts : pyInt ((pySplit 61 tEl).getD 1 []) with _ | ts
  · rfl
  simp only []
  by_cases hwin : |now - ts| > tol
  · rw [if_pos hwin]
    rfl
  · rw [if_neg hwin]
    simp [payloadBytes, hb]

/-! ## The claims -/

/-- Helper: the absolute window check, decided. -/
theorem decide_abs_le_true {x tol : Int} (h : |x| ≤ tol) : decide (|x| ≤ tol) = true := by
  simp [h]

/-- Helper: the absolute window check, refuted. -/
theorem decide_abs_le_false {x tol : Int} (h : tol < |x|) : decide (|x| ≤ tol) = false := by
  simp
  omega

/-- C1 (amended): round trip.  For every payload, secret, **nonzero**
timestamp `t`, signing clock and verifying clock, if `create_signature`
succeeds and `|now - t| ≤ tolerance` at verification time, then
`verify_signature` accepts the produced header.  (The source computes
`ts = timestamp or int(time.time())`, so a zero timestamp is replaced by
the signing clock, which breaks the claim as stated — see the
counterexample.) -/
theorem c1_round_trip (p : Payload) (s : PyStr) (t nowS tol now : Int) (h : PyStr)
    (ht : t ≠ 0) (hc : create_signature p s (some t) nowS = some h)
    (hwin : |now - t| ≤ tol) :
    verify_signature p h s tol now = true := by
  rw [verify_created hc]
  have he : pyOrInt (some t) nowS = t := by simp [pyOrInt, ht]
  rw [he]
  exact decide_abs_le_true hwin

/-- C1 (witness): a concrete round trip: payload `b'a'`, secret `'s'`,
timestamp 5, tolerance 300, verification at time 7. -/
theorem c1_round_trip_witness :
    verify_signature (Payload.bytes [97])
      ((create_signature (Payload.bytes [97]) [115] (some 5) 99).getD []) [115] 300 7 = true :=
  c1_round_trip (Payload.bytes [97]) [115] 5 99 300 7
    ((create_signature (Payload.bytes [97]) [115] (some 5) 99).getD [])
    (by decide) (by decide) (by decide)

/-- C1 (counterexample): the claim as stated fails at timestamp `T = 0`:
with the signing clock at 10 and the verifying clock at 1, `|now - T| = 1 ≤ 5`
holds, yet verification rejects the header, because `create_signature`
evaluates `timestamp or int(time.time())` and embeds the signing clock 10
instead of the requested 0. -/
theorem c1_round_trip_counterexample :
    (|(1 : Int) - 0| ≤ 5) ∧
    verify_signature (Payload.bytes [97])
      ((create_signature (Payload.bytes [97]) [115] (some 0) 10).getD []) [115] 5 1 = false := by
  constructor
  · decide
  · decide

/-- C5 (amended): the replay-window check.  For `tolerance ≥ 1` and
effective (nonzero) timestamps, a header signed at `now - tolerance - 1` is
rejected, one signed at `now - tolerance + 1` is accepted, and in general
any header `create_signature` produces for a nonzero timestamp outside the
window is rejected regardless of its (correct) digest.  (At `tolerance = 0`
the second instance of the claim fails — see the counterexample — because
`now - tolerance + 1` is then one second in the future and `|now - ts| = 1 > 0`.) -/
theorem c5_replay_window (p : Payload) (s : PyStr) (nowS tol now : Int) (h1 h2 : PyStr)
    (htol : 1 ≤ tol) (hz1 : now - tol - 1 ≠ 0) (hz2 : now - tol + 1 ≠ 0)
    (hc1 : create_signature p s (some (now - tol - 1)) nowS = some h1)
    (hc2 : create_signature p s (some (now - tol + 1)) nowS = some h2) :
    verify_signature p h1 s tol now = false ∧
    verify_signature p h2 s tol now = true ∧
    ∀ (t : Int) (h : PyStr), t ≠ 0 → tol < |now - t| →
      create_signature p s (some t) nowS = some h →
      verify_signature p h s tol now = false := by
  refine ⟨?_, ?_, ?_⟩
  · rw [verify_created hc1]
    have he : pyOrInt (some (now - tol - 1)) nowS = now - tol - 1 := by simp [pyOrInt, hz1]
    rw [he]
    refine decide_abs_le_false ?_
    rcases abs_cases (now - (now - tol - 1)) with ⟨hq, h0⟩ | ⟨hq, h0⟩ <;> rw [hq] <;> omega
  · rw [verify_created hc2]
    have he : pyOrInt (some (now - tol + 1)) nowS = now - tol + 1 := by simp [pyOrInt, hz2]
    rw [he]
    refine decide_abs_le_true ?_
    rcases abs_cases (now - (now - tol + 1)) with ⟨hq, h0⟩ | ⟨hq, h0⟩ <;> rw [hq] <;> omega
  · intro t h ht hgt hc
    rw [verify_created hc]
    have he : pyOrInt (some t) nowS = t := by simp [pyOrInt, ht]
    rw [he]
    exact decide_abs_le_false hgt

/-- C5 (witness): with `now = 400`, `tolerance = 300`, the header signed at
`99 = now - tolerance - 1` is rejected and the one signed at
`101 = now - tolerance + 1` is accepted. -/
theorem c5_replay_window_witness :
    verify_signature (Payload.bytes [97])
      ((create_signature (Payload.bytes [97]) [115] (some 99) 0).getD []) [115] 300 400 = false ∧
    verify_signature (Payload.bytes [97])
      ((create_signature (Payload.bytes [97]) [115] (some 101) 0).getD []) [115] 300 400 = true := by
  have h := c5_replay_window (Payload.bytes [97]) [115] 0 300 400
    ((create_signature (Payload.bytes [97]) [115] (some 99) 0).getD [])
    ((create_signature (Payload.bytes [97]) [115] (some 101) 0).getD [])
    (by decide) (by decide) (by decide) (by decide) (by decide)
  exact ⟨h.1, h.2.1⟩

/-- C5 (counterexample): at `tolerance = 0` the claim's second instance
fails: the header signed at `now - tolerance + 1 = 11` (one second in the
future of `now = 10`) is rejected, not accepted, since `|10 - 11| = 1 > 0`. -/
theorem c5_replay_window_counterexample :
    verify_signature (Payload.bytes [97])
      ((create_signature (Payload.bytes [97]) [115] (some 11) 99).getD []) [115] 0 10 = false := by
  decide

/-- C8 (amended): output format of `create_signature`.  Every produced
header is exactly `t=<ts>,v1=<digest>` where `<ts>` is the decimal
rendering of the effective timestamp and `<digest>` is 64 lowercase hex
characters; the effective timestamp is the provided `t` whenever `t ≠ 0`,
and the current clock when the argument is omitted — or zero, which the
source's `timestamp or int(time.time())` also treats as omitted (see the
counterexample). -/
theorem c8_sign_format (p : Payload) (s : PyStr) (T : Option Int) (now : Int) (h : PyStr)
    (hc : create_signature p s T now = some h) :
    (∃ dg, h = tKey ++ intStr (pyOrInt T now) ++ 44 :: v1Key ++ dg ∧
      dg.length = 64 ∧ ∀ c ∈ dg, (48 ≤ c ∧ c ≤ 57) ∨ (97 ≤ c ∧ c ≤ 102)) ∧
    (∀ t : Int, T = some t → t ≠ 0 → pyOrInt T now = t) ∧
    (T = none → pyOrInt T now = now) ∧
    (T = some 0 → pyOrInt T now = now) := by
  refine ⟨?_, ?_, ?_, ?_⟩
  · obtain ⟨pb, d, key, msg, _, _, _, _, hh⟩ := create_signature_eq hc
    exact ⟨hmacSha256Hex key msg, hh, hmacSha256Hex_length key msg, hmacSha256Hex_chars key msg⟩
  · rintro t rfl ht
    simp [pyOrInt, ht]
  · rintro rfl
    rfl
  · rintro rfl
    simp [pyOrInt]

/-- C8 (witness): the format statement at payload `b'a'`, secret `'s'`,
timestamp 5. -/
theorem c8_sign_format_witness :
    (∃ dg, (create_signature (Payload.bytes [97]) [115] (some 5) 99).getD [] =
        tKey ++ intStr (pyOrInt (some 5) 99) ++ 44 :: v1Key ++ dg ∧
      dg.length = 64 ∧ ∀ c ∈ dg, (48 ≤ c ∧ c ≤ 57) ∨ (97 ≤ c ∧ c ≤ 102)) ∧
    (∀ t : Int, some (5 : Int) = some t → t ≠ 0 → pyOrInt (some 5) 99 = t) ∧
    (some (5 : Int) = none → pyOrInt (some 5) 99 = 99) ∧
    (some (5 : Int) = some 0 → pyOrInt (some 5) 99 = 99) :=
  c8_sign_format (Payload.bytes [97]) [115] (some 5) 99
    ((create_signature (Payload.bytes [97]) [115] (some 5) 99).getD []) (by decide)

/-- C8 (counterexample): an explicitly provided timestamp `0` is not
rendered into the header: with the clock at 7, the header reads `t=7,...`
(`[116, 61, 55, 44]`), identical to the header produced with the argument
omitted. -/
theorem c8_sign_format_counterexample :
    ((create_signature (Payload.bytes [97]) [115] (some 0) 7).getD []).take 4 =
      [116, 61, 55, 44] ∧
    create_signature (Payload.bytes [97]) [115] (some 0) 7 =
      create_signature (Payload.bytes [97]) [115] none 7 := by
  constructor
  · decide
  · decide

/-- C2: `verify_signature` is an authoritative boolean gate: it always
returns a boolean (the `except (ValueError, TypeError, AttributeError)`
clause covers every exception its body can raise, so the embedding is a
total function), and it returns `True` only when the header parses, the
timestamp is within tolerance, the payload decodes, and the received `v1`
value equals the expected digest — equivalently, every failure mode (bad
header grammar, non-numeric timestamp, stale timestamp, invalid UTF-8,
wrong digest) yields `False`. -/
theorem c2_verify_total_fail_closed (p : Payload) (sig s : PyStr) (tol now : Int) :
    (verify_signature p sig s tol now = true ∨ verify_signature p sig s tol now = false) ∧
    (verify_signature p sig s tol now = true →
      ∃ tEl hEl ts pb d key msg,
        (pySplit 44 sig).find? (fun el => tKey.isPrefixOf el) = some tEl ∧
        (pySplit 44 sig).find? (fun el => v1Key.isPrefixOf el) = some hEl ∧
        pyInt ((pySplit 61 tEl).getD 1 []) = some ts ∧
        |now - ts| ≤ tol ∧
        payloadBytes p = some pb ∧
        utf8Decode pb = some d ∧
        utf8Encode s = some key ∧
        utf8Encode (intStr ts ++ 46 :: d) = some msg ∧
        (pySplit 61 hEl).getD 1 [] = hmacSha256Hex key msg) := by
  constructor
  · cases hv : verify_signature p sig s tol now
    · exact Or.inr rfl
    · exact Or.inl rfl
  · exact fun h => verify_signature_true h

/-- C2 (witness): the inversion applied to a concretely accepted input. -/
theorem c2_verify_total_fail_closed_witness :
    ∃ tEl hEl ts pb d key msg,
      (pySplit 44 ((create_signature (Payload.bytes [97]) [115] (some 5) 99).getD [])).find?
          (fun el => tKey.isPrefixOf el) = some tEl ∧
      (pySplit 44 ((create_signature (Payload.bytes [97]) [115] (some 5) 99).getD [])).find?
          (fun el => v1Key.isPrefixOf el) = some hEl ∧
      pyInt ((pySplit 61 tEl).getD 1 []) = some ts ∧
      |(7 : Int) - ts| ≤ 300 ∧
      payloadBytes (Payload.bytes [97]) = some pb ∧
      utf8Decode pb = some d ∧
      utf8Encode [115] = some key ∧
      utf8Encode (intStr ts ++ 46 :: d) = some msg ∧
      (pySplit 61 hEl).getD 1 [] = hmacSha256Hex key msg :=
  (c2_verify_total_fail_closed (Payload.bytes [97])
    ((create_signature (Payload.bytes [97]) [115] (some 5) 99).getD []) [115] 300 7).2
    (by decide)

/-- C3: the digest comparison (`hmac.compare_digest`, CPython's `_tscmp`)
does not short-circuit: its loop runs exactly `b.length` iterations —
a count depending only on the length of the right operand (the expected
digest), never on where the operands first differ — and its boolean
outcome is exactly equality of the operands. -/
theorem c3_constant_time (a a2 b b2 : Bytes) (hlen : b.length = b2.length) :
    (tscmpInstr a b).2 = (tscmpInstr a2 b2).2 ∧
    (tscmpInstr a b).2 = b.length ∧
    (tscmpInstr a b).1 = tscmp a b ∧
    (tscmp a b = true ↔ a = b) := by
  rw [tscmpInstr_spec, tscmpInstr_spec]
  exact ⟨by simp [hlen], rfl, rfl, tscmp_iff⟩

/-- C3 (witness): two pairs of equal-length operands differing at different
positions take the same number of comparison-loop iterations. -/
theorem c3_constant_time_witness :
    (tscmpInstr [1, 2, 3] [9, 2, 3]).2 = (tscmpInstr [1, 2, 3] [1, 2, 9]).2 ∧
    (tscmpInstr [1, 2, 3] [9, 2, 3]).2 = 3 ∧
    (tscmpInstr [1, 2, 3] [9, 2, 3]).1 = tscmp [1, 2, 3] [9, 2, 3] ∧
    (tscmp [1, 2, 3] [9, 2, 3] = true ↔ [1, 2, 3] = [9, 2, 3]) := by
  have h := c3_constant_time [1, 2, 3] [1, 2, 3] [9, 2, 3] [1, 2, 9] (by decide)
  exact ⟨h.1, h.2.1, h.2.2.1, h.2.2.2⟩

/-- C4 (amended): header parsing.  `verify_signature` scans the
comma-separated tokens for the *first* token starting with `t=` and the
*first* starting with `v1=`; if either is absent it returns `False`, and
the order of a `t=` token and a `v1=` token does not affect the result.
Duplicate or extra tokens are *not* rejected — the first occurrence of each
key wins (see the counterexample). -/
theorem c4_header_grammar :
    (∀ (p : Payload) (sig s : PyStr) (tol now : Int),
      ((pySplit 44 sig).find? (fun el => tKey.isPrefixOf el) = none ∨
       (pySplit 44 sig).find? (fun el => v1Key.isPrefixOf el) = none) →
      verify_signature p sig s tol now = false) ∧
    (∀ (p : Payload) (s : PyStr) (tol now : Int) (a b : PyStr),
      (∀ c ∈ a, c ≠ 44) → (∀ c ∈ b, c ≠ 44) →
      tKey.isPrefixOf a = true → v1Key.isPrefixOf b = true →
      verify_signature p (a ++ 44 :: b) s tol now =
        verify_signature p (b ++ 44 :: a) s tol now) :=
  ⟨fun _ _ _ _ _ h => verify_no_token h,
   fun _ _ _ _ _ _ ha hb hat hbv => verify_order ha hb hat hbv⟩

/-- C4 (witness): a header with no `t=` token (here: the empty header, and
a lone `v1=aa` header) is rejected. -/
theorem c4_header_grammar_witness :
    verify_signature (Payload.bytes [97]) (strLit "v1=aa") [115] 300 7 = false :=
  c4_header_grammar.1 (Payload.bytes [97]) (strLit "v1=aa") [115] 300 7 (Or.inl (by decide))

/-- C4 (counterexample): duplicate `t=` tokens do not make verification
fail.  Appending a second, bogus token `t=999` to a valid header leaves the
header accepted, because the parser keeps the first `t=` token instead of
rejecting the duplicate as the claim requires. -/
theorem c4_header_grammar_counterexample :
    verify_signature (Payload.bytes [97])
      (((create_signature (Payload.bytes [97]) [115] (some 5) 99).getD []) ++
        [44, 116, 61, 57, 57, 57]) [115] 300 5 = true := by
  decide

/-- C6: canonicalization of the signed string.  The digest both operations
compute is HMAC-SHA256, keyed with the UTF-8 bytes of the secret, over the
bytes `"{ts}." ++ payload_bytes` — the decimal timestamp, a literal dot,
and the raw payload bytes, never a re-serialized form: the signature header
produced by `create_signature` embeds exactly that digest, an accepted
verification equates the received `v1` value with exactly that digest, and
both operations depend on the payload only through its raw bytes. -/
theorem c6_canonical_signed_string :
    (∀ (p : Payload) (s : PyStr) (T : Option Int) (now : Int) (h : PyStr),
      create_signature p s T now = some h →
      ∃ pb key, payloadBytes p = some pb ∧ utf8Encode s = some key ∧
        h = tKey ++ intStr (pyOrInt T now) ++ 44 :: v1Key ++
            hmacSha256Hex key (intStr (pyOrInt T now) ++ 46 :: pb)) ∧
    (∀ (p : Payload) (sig s : PyStr) (tol now : Int),
      verify_signature p sig s tol now = true →
      ∃ tEl hEl ts pb key,
        (pySplit 44 sig).find? (fun el => tKey.isPrefixOf el) = some tEl ∧
        (pySplit 44 sig).find? (fun el => v1Key.isPrefixOf el) = some hEl ∧
        pyInt ((pySplit 61 tEl).getD 1 []) = some ts ∧
        payloadBytes p = some pb ∧ utf8Encode s = some key ∧
        (pySplit 61 hEl).getD 1 [] = hmacSha256Hex key (intStr ts ++ 46 :: pb)) ∧
    (∀ (p1 p2 : Payload) (s : PyStr) (T : Option Int) (now : Int),
      payloadBytes p1 = payloadBytes p2 →
      create_signature p1 s T now = create_signature p2 s T now) ∧
    (∀ (p1 p2 : Payload) (sig s : PyStr) (tol now : Int),
      payloadBytes p1 = payloadBytes p2 →
      verify_signature p1 sig s tol now = verify_signature p2 sig s tol now) := by
  refine ⟨?_, ?_, ?_, ?_⟩
  · intro p s T now h hc
    obtain ⟨pb, d, key, msg, hpb, hd, hk, hm, hh⟩ := create_signature_eq hc
    have hmb := signed_msg_bytes (pyOrInt T now) hd
    rw [hm] at hmb
    exact ⟨pb, key, hpb, hk, by rw [hh, Option.some.inj hmb]⟩
  · intro p sig s tol now hv
    obtain ⟨tEl, hEl, ts, pb, d, key, msg, hf1, hf2, hts, _, hpb, hd, hk, hm, hrec⟩ :=
      verify_signature_true hv
    have hmb := signed_msg_bytes ts hd
    rw [hm] at hmb
    exact ⟨tEl, hEl, ts, pb, key, hf1, hf2, hts, hpb, hk, by rw [hrec, Option.some.inj hmb]⟩
  · intro p1 p2 s T now hpp
    simp only [create_signature, hpp]
  · intro p1 p2 sig s tol now hpp
    simp only [verify_signature, verifyBody, hpp]

/-- C6 (witness): the canonical form of a concretely created header. -/
theorem c6_canonical_signed_string_witness :
    ∃ pb key, payloadBytes (Payload.bytes [97]) = some pb ∧ utf8Encode [115] = some key ∧
      (create_signature (Payload.bytes [97]) [115] (some 5) 99).getD [] =
        tKey ++ intStr (pyOrInt (some 5) 99) ++ 44 :: v1Key ++
          hmacSha256Hex key (intStr (pyOrInt (some 5) 99) ++ 46 :: pb) :=
  c6_canonical_signed_string.1 (Payload.bytes [97]) [115] (some 5) 99
    ((create_signature (Payload.bytes [97]) [115] (some 5) 99).getD []) (by decide)

/-- C7: `parse_event` fails exactly when the payload does not decode as
UTF-8 or does not parse as JSON, and the failure is always the one distinct
error `ValueError('Invalid webhook payload format')` — the fresh exception
the method raises after catching the underlying
`json.JSONDecodeError`/`UnicodeDecodeError` — never the underlying decode
exception; on every parseable payload it returns the parsed event. -/
theorem c7_parse_raises_iff (p : Payload) :
    (parse_event p = .error (PyErr.valueError invalidFormatMsg) ↔
      payloadStr p = none ∨ ∃ s, payloadStr p = some s ∧ jsonLoads s = none) ∧
    (∀ s v, payloadStr p = some s → jsonLoads s = some v → parse_event p = .ok v) ∧
    (∀ e, parse_event p = .error e → e = PyErr.valueError invalidFormatMsg) := by
  rcases hps : payloadStr p with _ | s
  · refine ⟨by simp [parse_event, hps], ?_, ?_⟩
    · intro s v hv
      simp at hv
    · intro e he
      simp only [parse_event, hps] at he
      exact (Except.error.inj he).symm
  · rcases hj : jsonLoads s with _ | v
    · refine ⟨by simp [parse_event, hps, hj], ?_, ?_⟩
      · intro s2 v hv hl
        rw [Option.some.inj hv] at hj
        rw [hj] at hl
        simp at hl
      · intro e he
        simp only [parse_event, hps, hj] at he
        exact (Except.error.inj he).symm
    · refine ⟨?_, ?_, ?_⟩
      · simp only [parse_event, hps, hj]
        constructor
        · intro he
          simp at he
        · rintro (he | ⟨s2, hs2, hl⟩)
          · simp at he
          · rw [Option.some.inj hs2] at hj
            rw [hj] at hl
            simp at hl
      · intro s2 v2 hv hl
        rw [Option.some.inj hv] at hj
        rw [hj] at hl
        have hjs : jsonLoads s = some v2 := by
          rw [Option.some.inj hv, hj, Option.some.inj hl]
        simp only [parse_event, hps, hjs]
      · intro e he
        simp only [parse_event, hps, hj] at he
        exact absurd he (by simp)

/-- C7 (witness): a payload that is not valid UTF-8 makes `parse_event`
fail with exactly the distinct `ValueError('Invalid webhook payload
format')`. -/
theorem c7_parse_raises_iff_witness :
    parse_event (Payload.bytes [255]) = .error (PyErr.valueError invalidFormatMsg) :=
  (c7_parse_raises_iff (Payload.bytes [255])).1.mpr (Or.inl (by decide))

/-- C9: fail-closed UTF-8 decoding.  For every payload byte sequence that
is not valid UTF-8, `verify_signature` returns `False` (it does not raise),
whatever the signature header, secret and tolerance. -/
theorem c9_invalid_utf8_fail_closed (b : Bytes) (sig s : PyStr) (tol now : Int)
    (hb : utf8Decode b = none) :
    verify_signature (Payload.bytes b) sig s tol now = false :=
  verify_bad_utf8 hb sig s tol now

/-- C9 (witness): the lone continuation byte `0x80` is invalid UTF-8 and is
rejected even under an otherwise plausible header. -/
theorem c9_invalid_utf8_fail_closed_witness :
    verify_signature (Payload.bytes [128]) (strLit "t=1,v1=aa") [115] 300 1 = false :=
  c9_invalid_utf8_fail_closed [128] (strLit "t=1,v1=aa") [115] 300 1 (by decide)

/-- C10: `parse_event` performs no structural validation of the event
shape: whatever valid JSON document the payload parses to is returned
verbatim, including non-mapping values — a string, number, boolean, null or
array — with no check for `id`, `type`, `timestamp` or `data` fields. -/
theorem c10_no_structural_validation :
    (∀ (p : Payload) (s : PyStr) (v : Json),
      payloadStr p = some s → jsonLoads s = some v → parse_event p = .ok v) ∧
    parse_event (Payload.str (strLit "\"x\"")) = .ok (Json.str [120]) ∧
    parse_event (Payload.str (strLit "5")) = .ok (Json.num [53]) ∧
    parse_event (Payload.str (strLit "true")) = .ok (Json.bool true) ∧
    parse_event (Payload.str (strLit "null")) = .ok Json.null ∧
    parse_event (Payload.str (strLit "[1, 2]")) =
      .ok (Json.arr [Json.num [49], Json.num [50]]) := by
  refine ⟨?_, by rfl, by rfl, by rfl, by rfl, by rfl⟩
  intro p s v hs hv
  simp only [parse_event, hs, hv]

/-- C10 (witness): a bare JSON number in a `bytes` payload is returned
verbatim. -/
theorem c10_no_structural_validation_witness :
    parse_event (Payload.bytes [53]) = .ok (Json.num [53]) :=
  c10_no_structural_validation.1 (Payload.bytes [53]) [53] (Json.num [53]) rfl rfl
